import Mathlib

/-!
Verification of the celestial coordinate & view projection engine of the
xeron-sky repository.  The JavaScript source (class `SkyRenderer`) is shallowly
embedded below: IEEE doubles are modelled by real numbers, the JavaScript `%`
operator by `jsRem`, and each method of the class by a Lean definition carrying
the same name.  Theorems at the end of the file settle the frozen claims about
the engine.
-/

namespace XeronSky

open Real

/-! ## The JavaScript remainder operator

JavaScript `x % y` (for `y > 0`) returns `x - y * trunc (x / y)`: the result
has the sign of the dividend `x`.  `mathMod` is the mathematician's modulus
(always in `[0, y)`), used to state what normalisation chains in the source
actually compute. -/

/-- Mathematical modulus: `x - y * ⌊x / y⌋`, in `[0, y)` for `y > 0`. -/
noncomputable def mathMod (x y : ℝ) : ℝ := x - y * ⌊x / y⌋

/-- The JavaScript remainder `x % y` for `y > 0`: truncated division, the
result keeps the sign of `x`. -/
noncomputable def jsRem (x y : ℝ) : ℝ :=
  if 0 ≤ x then x - y * ⌊x / y⌋ else x + y * ⌊(-x) / y⌋

theorem mathMod_eq_fract (x y : ℝ) (hy : y ≠ 0) :
    mathMod x y = y * Int.fract (x / y) := by
  unfold mathMod Int.fract
  field_simp

theorem mathMod_nonneg (x y : ℝ) (hy : 0 < y) : 0 ≤ mathMod x y := by
  rw [mathMod_eq_fract x y hy.ne']
  exact mul_nonneg hy.le (Int.fract_nonneg _)

theorem mathMod_lt (x y : ℝ) (hy : 0 < y) : mathMod x y < y := by
  rw [mathMod_eq_fract x y hy.ne']
  calc y * Int.fract (x / y) < y * 1 := by
        exact (mul_lt_mul_left hy).mpr (Int.fract_lt_one _)
    _ = y := mul_one y

theorem mathMod_add_int_mul (x y : ℝ) (k : ℤ) :
    mathMod (x + y * k) y = mathMod x y := by
  unfold mathMod
  by_cases hy : y = 0
  · simp [hy]
  · have : (x + y * k) / y = x / y + k := by field_simp; ring
    rw [this, Int.floor_add_int]
    push_cast
    ring

theorem jsRem_of_nonneg (x y : ℝ) (h : 0 ≤ x) : jsRem x y = mathMod x y := by
  simp [jsRem, mathMod, h]

theorem jsRem_of_neg (x y : ℝ) (h : x < 0) : jsRem x y = -(mathMod (-x) y) := by
  simp only [jsRem, mathMod, not_le.mpr h, if_false]
  ring

/-- The value `jsRem x y` differs from `x` by an integer multiple of `y`. -/
theorem jsRem_sub_int_mul (x y : ℝ) : ∃ k : ℤ, jsRem x y = x - y * k := by
  by_cases h : 0 ≤ x
  · exact ⟨⌊x / y⌋, by simp [jsRem, h]⟩
  · refine ⟨-⌊(-x) / y⌋, ?_⟩
    simp only [jsRem, h, if_false]
    push_cast
    ring

theorem jsRem_lt (x y : ℝ) (hy : 0 < y) : jsRem x y < y := by
  by_cases h : 0 ≤ x
  · rw [jsRem_of_nonneg x y h]; exact mathMod_lt x y hy
  · rw [jsRem_of_neg x y (not_le.mp h)]
    have := mathMod_nonneg (-x) y hy
    linarith

theorem neg_lt_jsRem (x y : ℝ) (hy : 0 < y) : -y < jsRem x y := by
  by_cases h : 0 ≤ x
  · rw [jsRem_of_nonneg x y h]
    have := mathMod_nonneg x y hy
    linarith
  · rw [jsRem_of_neg x y (not_le.mp h)]
    have := mathMod_lt (-x) y hy
    linarith

theorem jsRem_nonneg_of_nonneg (x y : ℝ) (hx : 0 ≤ x) (hy : 0 < y) :
    0 ≤ jsRem x y := by
  rw [jsRem_of_nonneg x y hx]; exact mathMod_nonneg x y hy

/-- The source's `((x % 360) + 360) % 360` idiom really computes the
mathematical modulus. -/
theorem jsRem_jsRem_add (x y : ℝ) (hy : 0 < y) :
    jsRem (jsRem x y + y) y = mathMod x y := by
  have h1 : 0 ≤ jsRem x y + y := by have := neg_lt_jsRem x y hy; linarith
  rw [jsRem_of_nonneg _ y h1]
  obtain ⟨k, hk⟩ := jsRem_sub_int_mul x y
  have h2 : jsRem x y + y = x + y * ((1 - k : ℤ) : ℝ) := by
    rw [hk]; push_cast; ring
  rw [h2, mathMod_add_int_mul]

/-! ## Data model

`Instant` models the UTC fields read off a JavaScript `Date`
(`getUTCHours`, `getUTCMinutes`, `getUTCSeconds`, `getUTCMilliseconds`);
`Location` the observer, `Star` a catalog record. -/

structure Instant where
  hours : ℕ
  minutes : ℕ
  seconds : ℕ
  millis : ℕ

structure Location where
  latitude : ℝ
  longitude : ℝ

structure Star where
  id : ℕ
  ra : ℝ
  dec : ℝ
  magnitude : ℝ

/-- Decimal UTC hours, including the sub-second fraction
(`transformStarsForProjection`, the `totalHours` local). -/
noncomputable def totalHours (t : Instant) : ℝ :=
  (t.hours : ℝ) + (t.minutes : ℝ) / 60 + (t.seconds : ℝ) / 3600 +
    (t.millis : ℝ) / 3600000

/-- Local sidereal time in degrees (`transformStarsForProjection`, the `lst`
local): decimal UTC hours times 15 plus the observer longitude, not reduced
modulo 360. -/
noncomputable def lst (t : Instant) (longitude : ℝ) : ℝ :=
  totalHours t * 15 + longitude

/-- The rotated right ascension computed for each star
(`transformStarsForProjection`): `(star.ra * 15 - lst + 360) % 360` with the
JavaScript remainder. -/
noncomputable def rotatedRa (t : Instant) (longitude ra : ℝ) : ℝ :=
  jsRem (ra * 15 - lst t longitude + 360) 360

/-! ## Projection strategies -/

/-- The method `equatorialToStereographic(ra, dec)`: `ra` in hours, `dec` in degrees. -/
noncomputable def equatorialToStereographic (ra dec : ℝ) : ℝ × ℝ × ℝ :=
  let raRad := (ra * 15) * π / 180
  let decRad := dec * π / 180
  let cosDec := Real.cos decRad
  let k := 2.0 / (1.0 + cosDec * Real.cos raRad)
  (k * cosDec * Real.sin raRad, k * Real.sin decRad, 0)

/-- The normalised right ascension of `equatorialToMercator`: subtract the
pan offset when Mercator is active, then `((x % 360) + 360) % 360`. -/
noncomputable def mercatorNormalizedRA (projectionType : String) (panX ra : ℝ) : ℝ :=
  let n0 := ra * 15
  let n1 := if projectionType = "mercator" then n0 - panX * 180 / π else n0
  jsRem (jsRem n1 360 + 360) 360

/-- The clamped declination (radians) of `equatorialToMercator`:
`Math.max(Math.min(dec * π / 180, 1.4835), -1.4835)`. -/
noncomputable def mercatorClampedDec (dec : ℝ) : ℝ :=
  max (min (dec * π / 180) 1.4835) (-1.4835)

/-- The method `equatorialToMercator(ra, dec)`: `ra` in hours, `dec` in degrees; reads
`this.projectionType` and `this.pan.x`. -/
noncomputable def equatorialToMercator (projectionType : String) (panX ra dec : ℝ) :
    ℝ × ℝ × ℝ :=
  let raRad := (mercatorNormalizedRA projectionType panX ra - 180) * π / 180
  let decRad := mercatorClampedDec dec
  (raRad, Real.log (Real.tan (π / 4 + decRad / 2)), 0)

/-- Closed form of the source loop `while (normalizedRA > 360) normalizedRA -= 360`:
subtracts 360 the minimal number of times needed to land at or below 360. -/
noncomputable def whileSub360 (x : ℝ) : ℝ :=
  if 360 < x then x - 360 * ⌈(x - 360) / 360⌉ else x

/-- Closed form of the source loop `while (normalizedRA < 0) normalizedRA += 360`:
adds 360 the minimal number of times needed to become nonnegative. -/
noncomputable def whileAdd360 (x : ℝ) : ℝ :=
  if x < 0 then x + 360 * ⌈(-x) / 360⌉ else x

/-- The normalised right ascension of `equatorialToHammer`: the two `while`
loops, then the optional polar-axis rotation applied under Hammer mode. -/
noncomputable def hammerNormalizedRA (projectionType : String)
    (hammerRotation ra : ℝ) : ℝ :=
  let n := whileAdd360 (whileSub360 (ra * 15))
  if projectionType = "hammer" ∧ hammerRotation ≠ 0 then
    jsRem (n + hammerRotation * 180 / π) 360
  else n

/-- The recentred right ascension (radians) of `equatorialToHammer`:
`((normalizedRA + 180) % 360 - 180) * π / 180`. -/
noncomputable def hammerRaRad (projectionType : String) (hammerRotation ra : ℝ) : ℝ :=
  (jsRem (hammerNormalizedRA projectionType hammerRotation ra + 180) 360 - 180) *
    π / 180

/-- The Hammer-Aitoff denominator `Math.sqrt(1 + cosDec * cosAlpha)`. -/
noncomputable def hammerDenom (projectionType : String)
    (hammerRotation ra dec : ℝ) : ℝ :=
  Real.sqrt (1 + Real.cos (dec * π / 180) *
    Real.cos (hammerRaRad projectionType hammerRotation ra / 2))

/-- The method `equatorialToHammer(ra, dec)`: `ra` in hours, `dec` in degrees; reads
`this.projectionType` and `this.hammerRotation`.  Returns the origin when the
denominator is zero, otherwise the Hammer-Aitoff formulas. -/
noncomputable def equatorialToHammer (projectionType : String)
    (hammerRotation ra dec : ℝ) : ℝ × ℝ × ℝ :=
  let alphaPrime := hammerRaRad projectionType hammerRotation ra / 2
  let decRad := dec * π / 180
  let denom := hammerDenom projectionType hammerRotation ra dec
  if denom = 0 then (0, 0, 0)
  else
    (2 * Real.sqrt 2 * Real.cos decRad * Real.sin alphaPrime / denom,
     Real.sqrt 2 * Real.sin decRad / denom, 0)

/-! ## Engine state

The mutable fields of the `SkyRenderer` class that the claims touch.
`stars` is `Option` to model the nullable `this.stars`; `starBuffer` models
the transformed positions uploaded to the GPU position buffer by
`updateStarData` (the colour and magnitude buffers are presentation data and
are not modelled). -/

structure EngineState where
  projectionType : String
  pan : ℝ × ℝ
  scale : ℝ
  rotation : ℝ × ℝ
  zoom : ℝ
  hammerRotation : ℝ
  location : Location
  stars : Option (List Star)
  starBuffer : List (ℝ × ℝ × ℝ)
  starCount : ℕ

/-! ## Catalog transform pipeline -/

/-- The per-star body of `transformStarsForProjection`: rotate the right
ascension by sidereal time, then apply the projection selected by `type`
(the `switch` statement; the default case is the spherical unit-sphere
Cartesian conversion). -/
noncomputable def transformStar (type : String) (st : EngineState) (t : Instant)
    (s : Star) : ℝ × ℝ × ℝ :=
  let starRA := rotatedRa t st.location.longitude s.ra
  if type = "stereographic" then
    equatorialToStereographic (starRA / 15) s.dec
  else if type = "mercator" then
    equatorialToMercator st.projectionType st.pan.1 (starRA / 15) s.dec
  else if type = "hammer" then
    equatorialToHammer st.projectionType st.hammerRotation (starRA / 15) s.dec
  else
    let raRad := starRA * π / 180
    let decRad := s.dec * π / 180
    (Real.cos decRad * Real.cos raRad, Real.cos decRad * Real.sin raRad,
      Real.sin decRad)

/-- The method `transformStarsForProjection(stars, type, currentTime)`: maps each star to
itself merged with its projected coordinates. -/
noncomputable def transformStarsForProjection (type : String) (st : EngineState)
    (t : Instant) (stars : List Star) : List (Star × (ℝ × ℝ × ℝ)) :=
  stars.map fun s => (s, transformStar type st t s)

/-! ## Screen projector

`Mat4` mirrors a gl-matrix `mat4` (a flat array of 16 entries in column-major
order); `transformMat4` is `vec4.transformMat4`. -/

structure Vec4 where
  x : ℝ
  y : ℝ
  z : ℝ
  w : ℝ

structure Mat4 where
  a0 : ℝ
  a1 : ℝ
  a2 : ℝ
  a3 : ℝ
  a4 : ℝ
  a5 : ℝ
  a6 : ℝ
  a7 : ℝ
  a8 : ℝ
  a9 : ℝ
  a10 : ℝ
  a11 : ℝ
  a12 : ℝ
  a13 : ℝ
  a14 : ℝ
  a15 : ℝ

/-- The gl-matrix routine `vec4.transformMat4(out, a, m)` (column-major). -/
def transformMat4 (m : Mat4) (v : Vec4) : Vec4 :=
  ⟨m.a0 * v.x + m.a4 * v.y + m.a8 * v.z + m.a12 * v.w,
   m.a1 * v.x + m.a5 * v.y + m.a9 * v.z + m.a13 * v.w,
   m.a2 * v.x + m.a6 * v.y + m.a10 * v.z + m.a14 * v.w,
   m.a3 * v.x + m.a7 * v.y + m.a11 * v.z + m.a15 * v.w⟩

/-- The identity `mat4`, for concrete instantiations. -/
def mat4Id : Mat4 := ⟨1, 0, 0, 0, 0, 1, 0, 0, 0, 0, 1, 0, 0, 0, 0, 1⟩

/-- The method `projectPoint(point)`: transform by the model-view then projection
matrices, reject homogeneous `w ≤ 0` as "behind the camera" (`null`),
otherwise map NDC to pixel space. -/
noncomputable def projectPoint (modelView projection : Mat4) (W H : ℝ)
    (p : ℝ × ℝ × ℝ) : Option (ℝ × ℝ) :=
  let pos := transformMat4 projection (transformMat4 modelView ⟨p.1, p.2.1, p.2.2, 1⟩)
  if pos.w ≤ 0 then none
  else some ((pos.x / pos.w + 1) * W / 2, (-pos.y / pos.w + 1) * H / 2)

/-! ## Picking (the canvas `click` handler)

The handler computes, for each transformed star, its screen position and the
Euclidean pixel distance to the pointer, keeping the strictly closest star
(`minDistance` starts at `Infinity`, so the first projected star is always
adopted; a later star replaces the current one only when its distance is
strictly smaller).  The result is a hit only when the minimal distance is
below the 10-pixel threshold. -/

/-- The distance `Math.sqrt(dx*dx + dy*dy)` between a projected position and the pointer. -/
noncomputable def pixelDistance (p mouse : ℝ × ℝ) : ℝ :=
  Real.sqrt ((p.1 - mouse.1) * (p.1 - mouse.1) + (p.2 - mouse.2) * (p.2 - mouse.2))

/-- One iteration of the `transformedStars.forEach` loop: skip stars that
project behind the camera; otherwise adopt the star if the accumulator is
empty (every real distance is `< Infinity`) or its distance is strictly
smaller than the minimum so far. -/
noncomputable def pickStep {α : Type} (proj : α → Option (ℝ × ℝ)) (mouse : ℝ × ℝ)
    (acc : Option (α × (ℝ × ℝ) × ℝ)) (s : α) : Option (α × (ℝ × ℝ) × ℝ) :=
  match proj s with
  | none => acc
  | some p =>
    let d := pixelDistance p mouse
    match acc with
    | none => some (s, p, d)
    | some (s0, p0, d0) => if d < d0 then some (s, p, d) else some (s0, p0, d0)

/-- The whole `forEach` scan over the star list. -/
noncomputable def pickLoop {α : Type} (proj : α → Option (ℝ × ℝ)) (mouse : ℝ × ℝ)
    (acc : Option (α × (ℝ × ℝ) × ℝ)) : List α → Option (α × (ℝ × ℝ) × ℝ)
  | [] => acc
  | s :: rest => pickLoop proj mouse (pickStep proj mouse acc s) rest

/-- The screen position a star gets inside the click handler: the transform
pipeline at the handler's snapshot instant followed by `projectPoint`. -/
noncomputable def starScreen (st : EngineState) (modelView projection : Mat4)
    (W H : ℝ) (t : Instant) (s : Star) : Option (ℝ × ℝ) :=
  projectPoint modelView projection W H (transformStar st.projectionType st t s)

/-- The hit-test of the click handler: the closest projected star, if its
distance beats the fixed `threshold = 10`. -/
noncomputable def clickPick (st : EngineState) (modelView projection : Mat4)
    (W H : ℝ) (t : Instant) (stars : List Star) (mouse : ℝ × ℝ) :
    Option (Star × (ℝ × ℝ)) :=
  match pickLoop (starScreen st modelView projection W H t) mouse none stars with
  | none => none
  | some (s, p, d) => if d < 10 then some (s, p) else none

/-- The `activeStars` mutation of the click handler: a map insertion happens
only on a hit. -/
noncomputable def clickUpdateActive (st : EngineState) (modelView projection : Mat4)
    (W H : ℝ) (t : Instant) (stars : List Star) (mouse : ℝ × ℝ)
    (active : List (ℕ × Star)) : List (ℕ × Star) :=
  match clickPick st modelView projection W H t stars mouse with
  | none => active
  | some (s, _) => (s.id, s) :: active

/-! ## Wheel zoom, Mercator drag, navigation animation -/

/-- The spherical branch of the `wheel` handler: multiply the zoom by 0.9 or
1.1 and clamp to `[0.1, 5.0]`. -/
noncomputable def wheelZoomSpherical (zoom deltaY : ℝ) : ℝ :=
  max 0.1 (min (zoom * (if 0 < deltaY then 0.9 else 1.1)) 5.0)

/-- The flat branch of the `wheel` handler: zoom around the mouse position by
adjusting the pan, multiply the scale by the factor and clamp to
`[0.1, 10.0]`.  Returns the new `(pan, scale)`. -/
noncomputable def wheelZoomFlat (pan : ℝ × ℝ) (scale : ℝ)
    (deltaY mouseX mouseY W H : ℝ) : (ℝ × ℝ) × ℝ :=
  let zoomFactor := if 0 < deltaY then 0.9 else 1.1
  let ndcX := (mouseX / W) * 2 - 1
  let ndcY := 1 - (mouseY / H) * 2
  let panX := (pan.1 - ndcX) * zoomFactor + ndcX
  let panY := (pan.2 - ndcY) * zoomFactor + ndcY
  ((panX, panY), max 0.1 (min (scale * zoomFactor) 10.0))

/-- The Mercator branch of the `mousemove` drag handler: unbounded horizontal
scroll, vertical pan clamped to `[-π/2, π/2]`. -/
noncomputable def mercatorDragPan (pan : ℝ × ℝ) (deltaX deltaY scale W : ℝ) :
    ℝ × ℝ :=
  let mercatorScaleFactor := 2.0 / (scale * W)
  let newY := pan.2 - deltaY * mercatorScaleFactor
  (pan.1 + deltaX * mercatorScaleFactor, max (min newY (π / 2)) (-(π / 2)))

/-- The ease-out-cubic easing of `navigateToStar`'s animation callback. -/
noncomputable def easeOutCubic (progress : ℝ) : ℝ := 1 - (1 - progress) ^ 3

/-- Animation progress: `Math.min(elapsed / duration, 1)` with the fixed
1000 ms duration. -/
noncomputable def animProgress (elapsed : ℝ) : ℝ := min (elapsed / 1000) 1

/-- The zoom written by one animation step: interpolation from `startZoom`
toward the fixed default 2.0. -/
noncomputable def animZoom (startZoom elapsed : ℝ) : ℝ :=
  startZoom + (2.0 - startZoom) * easeOutCubic (animProgress elapsed)

/-- The scale written by one animation step: interpolation from `startScale`
toward the fixed default 1.0. -/
noncomputable def animScale (startScale elapsed : ℝ) : ℝ :=
  startScale + (1.0 - startScale) * easeOutCubic (animProgress elapsed)

/-! ## setProjection and updateStarData -/

def validTypes : List String := ["spherical", "stereographic", "mercator", "hammer"]

/-- The method `updateStarData(stars, currentTime)`: bail out on a null or empty star
list, otherwise store the list and upload the transformed positions (the
buffer contents) for the active projection. -/
noncomputable def updateStarData (t : Instant) (st : EngineState) : EngineState :=
  match st.stars with
  | none => st
  | some stars =>
    if stars.length = 0 then st
    else
      let transformed := transformStarsForProjection st.projectionType st t stars
      { st with starBuffer := transformed.map Prod.snd, starCount := stars.length }

/-- The method `setProjection(type)`: only a recognised type mutates the state; the
star data is then recomputed (at the wall-clock instant `t`, modelling the
`new Date()` default argument). -/
noncomputable def setProjection (t : Instant) (st : EngineState) (type : String) :
    EngineState :=
  if type ∈ validTypes then
    let st1 := { st with projectionType := type }
    if st1.stars.isSome then updateStarData t st1 else st1
  else st

/-! ## Polyline segment clipping (`drawGrid`) -/

/-- The segment-suppression condition of `drawGrid` (the negation of its
`shouldDraw` flag) for two consecutive on-screen points: under Hammer, an
endpoint outside the 1.15 normalized radius, an over-long segment, or a
horizontal wrap; under Mercator, a horizontal wrap; never otherwise. -/
noncomputable def suppressSegment (type : String) (lastPos pos : ℝ × ℝ)
    (W H : ℝ) : Prop :=
  let dx := pos.1 - lastPos.1
  let dy := pos.2 - lastPos.2
  let distance := Real.sqrt (dx * dx + dy * dy)
  if type = "hammer" then
    let nx1 := (lastPos.1 / W) * 2 - 1
    let nx2 := (pos.1 / W) * 2 - 1
    let ny1 := (lastPos.2 / H) * 2 - 1
    let ny2 := (pos.2 / H) * 2 - 1
    let r1 := Real.sqrt (nx1 * nx1 + ny1 * ny1)
    let r2 := Real.sqrt (nx2 * nx2 + ny2 * ny2)
    r1 > 1.15 ∨ r2 > 1.15 ∨ distance > W * 0.4 ∨
      (nx1 * nx2 < 0 ∧ |dx| > W * 0.4)
  else if type = "mercator" then |dx| > W * 0.8
  else False

/-- The spec's "normalized distance from the image center" of a screen point:
the radius of its normalized-device coordinate. -/
noncomputable def normalizedRadius (p : ℝ × ℝ) (W H : ℝ) : ℝ :=
  Real.sqrt (((p.1 / W) * 2 - 1) * ((p.1 / W) * 2 - 1) +
    ((p.2 / H) * 2 - 1) * ((p.2 / H) * 2 - 1))

/-- The spec's "segment's pixel length" between two screen points. -/
noncomputable def segmentLength (lastPos pos : ℝ × ℝ) : ℝ :=
  Real.sqrt ((pos.1 - lastPos.1) * (pos.1 - lastPos.1) +
    (pos.2 - lastPos.2) * (pos.2 - lastPos.2))

/-- A concrete engine state for exercising the pick pipeline: spherical mode,
observer at (0, 0), default view. -/
noncomputable def pickDemoState : EngineState :=
  ⟨"spherical", (0, 0), 1, (0, 0), 2, 0, ⟨0, 0⟩, none, [], 0⟩

/-- A star at the vernal equinox (ra 0 h, dec 0). -/
noncomputable def pickDemoStar : Star := ⟨0, 0, 0, 0⟩

/-! ## Supporting lemmas -/

theorem updateStarData_projectionType (t : Instant) (st : EngineState) :
    (updateStarData t st).projectionType = st.projectionType := by
  unfold updateStarData
  cases st.stars with
  | none => rfl
  | some stars =>
    by_cases h : stars.length = 0 <;> simp [h]

/-! ## Claims -/

/-- C3: `projectPoint` returns `null` ("no screen position") exactly when the
homogeneous `w` coordinate after the model-view and projection transforms is
`≤ 0`; whenever `w > 0` it returns the pixel coordinate obtained from the
NDC-to-pixel mapping. -/
theorem projectPoint_behind_camera (modelView projection : Mat4) (W H : ℝ)
    (p : ℝ × ℝ × ℝ) :
    (projectPoint modelView projection W H p = none ↔
      (transformMat4 projection
        (transformMat4 modelView ⟨p.1, p.2.1, p.2.2, 1⟩)).w ≤ 0) ∧
    (0 < (transformMat4 projection
        (transformMat4 modelView ⟨p.1, p.2.1, p.2.2, 1⟩)).w →
      projectPoint modelView projection W H p =
        some (((transformMat4 projection
            (transformMat4 modelView ⟨p.1, p.2.1, p.2.2, 1⟩)).x /
          (transformMat4 projection
            (transformMat4 modelView ⟨p.1, p.2.1, p.2.2, 1⟩)).w + 1) * W / 2,
          (-(transformMat4 projection
            (transformMat4 modelView ⟨p.1, p.2.1, p.2.2, 1⟩)).y /
          (transformMat4 projection
            (transformMat4 modelView ⟨p.1, p.2.1, p.2.2, 1⟩)).w + 1) * H / 2)) := by
  unfold projectPoint
  constructor
  · constructor
    · intro h
      by_contra hw
      simp [hw] at h
    · intro hw
      simp [hw]
  · intro hw
    rw [if_neg (not_le.mpr hw)]

theorem projectPoint_behind_camera_witness :
    0 < (transformMat4 mat4Id (transformMat4 mat4Id ⟨0, 0, 0, 1⟩)).w ∧
    projectPoint mat4Id mat4Id 800 600 (0, 0, 0) = some (400, 300) := by
  have h : (0 : ℝ) < (transformMat4 mat4Id (transformMat4 mat4Id ⟨0, 0, 0, 1⟩)).w := by
    norm_num [transformMat4, mat4Id]
  refine ⟨h, ?_⟩
  have := (projectPoint_behind_camera mat4Id mat4Id 800 600 (0, 0, 0)).2 h
  rw [this]
  norm_num [transformMat4, mat4Id]

/-- C8: after each wheel-zoom mutation and each navigation-animation step the
zoom lies in `[0.1, 5.0]` and the scale in `[0.1, 10.0]` (for the animation,
provided they started within those ranges and the frame time is not before
the animation start). -/
theorem zoom_scale_clamped :
    (∀ zoom deltaY : ℝ, 0.1 ≤ wheelZoomSpherical zoom deltaY ∧
      wheelZoomSpherical zoom deltaY ≤ 5.0) ∧
    (∀ (pan : ℝ × ℝ) (scale deltaY mouseX mouseY W H : ℝ),
      0.1 ≤ (wheelZoomFlat pan scale deltaY mouseX mouseY W H).2 ∧
      (wheelZoomFlat pan scale deltaY mouseX mouseY W H).2 ≤ 10.0) ∧
    (∀ startZoom startScale elapsed : ℝ,
      0.1 ≤ startZoom → startZoom ≤ 5.0 →
      0.1 ≤ startScale → startScale ≤ 10.0 →
      0 ≤ elapsed →
      (0.1 ≤ animZoom startZoom elapsed ∧ animZoom startZoom elapsed ≤ 5.0) ∧
      (0.1 ≤ animScale startScale elapsed ∧ animScale startScale elapsed ≤ 10.0)) := by
  refine ⟨?_, ?_, ?_⟩
  · intro zoom deltaY
    unfold wheelZoomSpherical
    exact ⟨le_max_left _ _, max_le (by norm_num) (min_le_right _ _)⟩
  · intro pan scale deltaY mouseX mouseY W H
    unfold wheelZoomFlat
    exact ⟨le_max_left _ _, max_le (by norm_num) (min_le_right _ _)⟩
  · intro startZoom startScale elapsed hz1 hz2 hs1 hs2 he
    have hp0 : 0 ≤ animProgress elapsed :=
      le_min (div_nonneg he (by norm_num)) zero_le_one
    have hp1 : animProgress elapsed ≤ 1 := min_le_right _ _
    have he0 : 0 ≤ easeOutCubic (animProgress elapsed) := by
      unfold easeOutCubic
      have h3 : (1 - animProgress elapsed) ^ 3 ≤ 1 :=
        pow_le_one₀ (by linarith) (by linarith)
      linarith
    have he1 : easeOutCubic (animProgress elapsed) ≤ 1 := by
      unfold easeOutCubic
      have h3 : 0 ≤ (1 - animProgress elapsed) ^ 3 :=
        pow_nonneg (by linarith) 3
      linarith
    unfold animZoom animScale
    set E := easeOutCubic (animProgress elapsed) with hE
    refine ⟨⟨?_, ?_⟩, ?_, ?_⟩
    · nlinarith [mul_nonneg (sub_nonneg.mpr hz1) (sub_nonneg.mpr he1)]
    · nlinarith [mul_nonneg (sub_nonneg.mpr hz2) he0]
    · nlinarith [mul_nonneg (sub_nonneg.mpr hs1) (sub_nonneg.mpr he1)]
    · nlinarith [mul_nonneg (sub_nonneg.mpr hs2) he0]

theorem zoom_scale_clamped_witness :
    (0.1 ≤ (1 : ℝ) ∧ (1 : ℝ) ≤ 5.0) ∧ (0.1 ≤ (1 : ℝ) ∧ (1 : ℝ) ≤ 10.0) ∧
    (0 ≤ (500 : ℝ)) ∧
    ((0.1 ≤ animZoom 1 500 ∧ animZoom 1 500 ≤ 5.0) ∧
      (0.1 ≤ animScale 1 500 ∧ animScale 1 500 ≤ 10.0)) := by
  refine ⟨⟨by norm_num, by norm_num⟩, ⟨by norm_num, by norm_num⟩, by norm_num, ?_⟩
  exact zoom_scale_clamped.2.2 1 1 500 (by norm_num) (by norm_num) (by norm_num)
    (by norm_num) (by norm_num)

/-- C9: `setProjection` with an argument outside
{spherical, stereographic, mercator, hammer} leaves the engine state
unchanged (and, being a total function, never throws); a valid argument makes
that mode active. -/
theorem setProjection_spec (t : Instant) (st : EngineState) (type : String) :
    (type ∉ validTypes → setProjection t st type = st) ∧
    (type ∈ validTypes → (setProjection t st type).projectionType = type) := by
  constructor
  · intro h
    unfold setProjection
    rw [if_neg h]
  · intro h
    unfold setProjection
    rw [if_pos h]
    simp only []
    split
    · rw [updateStarData_projectionType]
    · rfl

theorem setProjection_spec_witness :
    ("nebula" ∉ validTypes ∧
      setProjection ⟨0, 0, 0, 0⟩
        ⟨"spherical", (0, 0), 1, (0, 0), 2, 0, ⟨0, 0⟩, none, [], 0⟩ "nebula" =
        ⟨"spherical", (0, 0), 1, (0, 0), 2, 0, ⟨0, 0⟩, none, [], 0⟩) ∧
    ("mercator" ∈ validTypes ∧
      (setProjection ⟨0, 0, 0, 0⟩
        ⟨"spherical", (0, 0), 1, (0, 0), 2, 0, ⟨0, 0⟩, none, [], 0⟩
        "mercator").projectionType = "mercator") := by
  have h1 : "nebula" ∉ validTypes := by simp [validTypes]
  have h2 : "mercator" ∈ validTypes := by simp [validTypes]
  exact ⟨⟨h1, (setProjection_spec _ _ _).1 h1⟩, ⟨h2, (setProjection_spec _ _ _).2 h2⟩⟩

/-- C10: the Mercator drag handler always leaves the vertical pan in
`[-π/2, π/2]` whatever the prior pan and drag delta, while the horizontal pan
is the unclamped `pan.x + deltaX * 2 / (scale * width)` and can be driven past
any bound. -/
theorem mercatorDragPan_spec (pan : ℝ × ℝ) (deltaX deltaY scale W : ℝ) :
    (-(π / 2) ≤ (mercatorDragPan pan deltaX deltaY scale W).2 ∧
      (mercatorDragPan pan deltaX deltaY scale W).2 ≤ π / 2) ∧
    (mercatorDragPan pan deltaX deltaY scale W).1 =
      pan.1 + deltaX * (2.0 / (scale * W)) ∧
    (0 < scale → 0 < W → ∀ B : ℝ, ∃ dx : ℝ,
      B < (mercatorDragPan pan dx deltaY scale W).1) := by
  refine ⟨⟨le_max_right _ _, ?_⟩, rfl, ?_⟩
  · exact max_le (le_trans (min_le_right _ _) le_rfl)
      (by linarith [Real.pi_pos])
  · intro hs hW B
    refine ⟨(B + 1 - pan.1) * (scale * W) / 2, ?_⟩
    have hsW : scale * W ≠ 0 := (mul_pos hs hW).ne'
    have hval : pan.1 + (B + 1 - pan.1) * (scale * W) / 2 * (2.0 / (scale * W)) =
        B + 1 := by
      field_simp
      ring
    show B < pan.1 + (B + 1 - pan.1) * (scale * W) / 2 * (2.0 / (scale * W))
    rw [hval]
    linarith

theorem mercatorDragPan_spec_witness :
    (-(π / 2) ≤ (mercatorDragPan (0, 0) 3 (-1000000) 1 2).2 ∧
      (mercatorDragPan (0, 0) 3 (-1000000) 1 2).2 ≤ π / 2) ∧
    (0 < (1 : ℝ) ∧ 0 < (2 : ℝ) ∧
      ∃ dx : ℝ, (100 : ℝ) < (mercatorDragPan (0, 0) dx (-1000000) 1 2).1) := by
  refine ⟨(mercatorDragPan_spec (0, 0) 3 (-1000000) 1 2).1, by norm_num, by norm_num, ?_⟩
  exact (mercatorDragPan_spec (0, 0) 3 (-1000000) 1 2).2.2 (by norm_num) (by norm_num) 100

/-- C1 counterexample: at UTC 23:00:00.000, longitude 180 and a star at
ra = 0 h, the unreduced sidereal time is 525°, the dividend
`0·15 - 525 + 360 = -165` is negative, and the JavaScript remainder keeps its
sign: the pipeline feeds the projection the rotated right ascension `-165`,
which does not lie in `[0, 360)`. -/
theorem rotatedRa_not_in_range :
    rotatedRa ⟨23, 0, 0, 0⟩ 180 0 = -165 ∧
    ¬ (0 ≤ rotatedRa ⟨23, 0, 0, 0⟩ 180 0) := by
  have harg : (0 : ℝ) * 15 - lst ⟨23, 0, 0, 0⟩ 180 + 360 = -165 := by
    unfold lst totalHours
    norm_num
  have hval : rotatedRa ⟨23, 0, 0, 0⟩ 180 0 = -165 := by
    unfold rotatedRa
    rw [harg]
    rw [jsRem_of_neg _ _ (by norm_num)]
    unfold mathMod
    have hfl : ⌊(165 : ℝ) / 360⌋ = 0 := by
      apply Int.floor_eq_zero_iff.mpr
      constructor <;> norm_num
    rw [show -(-165 : ℝ) = 165 by norm_num, hfl]
    norm_num
  exact ⟨hval, by rw [hval]; norm_num⟩

/-- C1 (amended): the pipeline feeds the active projection strategy
`rotatedRa / 15` where `rotatedRa` is the JavaScript remainder
`(ra·15 - lst + 360) % 360` and `lst` is decimal UTC hours × 15 plus the
observer longitude, not reduced modulo 360.  The value lies in `(-360, 360)`
and is congruent to `ra·15 - lst` modulo 360; it lies in `[0, 360)` whenever
the dividend `ra·15 - lst + 360` is nonnegative, but is negative otherwise. -/
theorem rotatedRa_spec (t : Instant) (longitude ra : ℝ) :
    (lst t longitude = totalHours t * 15 + longitude) ∧
    (-360 < rotatedRa t longitude ra ∧ rotatedRa t longitude ra < 360) ∧
    (∃ k : ℤ, rotatedRa t longitude ra =
      ra * 15 - lst t longitude + 360 - 360 * k) ∧
    (0 ≤ ra * 15 - lst t longitude + 360 →
      0 ≤ rotatedRa t longitude ra) ∧
    (ra * 15 - lst t longitude + 360 < 0 →
      rotatedRa t longitude ra ≤ 0) ∧
    (∀ (st : EngineState) (s : Star),
      transformStar "stereographic" st t s =
        equatorialToStereographic
          (rotatedRa t st.location.longitude s.ra / 15) s.dec ∧
      transformStar "mercator" st t s =
        equatorialToMercator st.projectionType st.pan.1
          (rotatedRa t st.location.longitude s.ra / 15) s.dec ∧
      transformStar "hammer" st t s =
        equatorialToHammer st.projectionType st.hammerRotation
          (rotatedRa t st.location.longitude s.ra / 15) s.dec) := by
  refine ⟨rfl, ⟨neg_lt_jsRem _ _ (by norm_num), jsRem_lt _ _ (by norm_num)⟩,
    ?_, ?_, ?_, ?_⟩
  · obtain ⟨k, hk⟩ := jsRem_sub_int_mul (ra * 15 - lst t longitude + 360) 360
    exact ⟨k, by rw [rotatedRa, hk]⟩
  · intro h
    exact jsRem_nonneg_of_nonneg _ _ h (by norm_num)
  · intro h
    unfold rotatedRa
    rw [jsRem_of_neg _ _ h]
    have h1 : 0 ≤ mathMod (-(ra * 15 - lst t longitude + 360)) 360 :=
      mathMod_nonneg _ _ (by norm_num)
    linarith
  · intro st s
    refine ⟨?_, ?_, ?_⟩ <;> rfl

theorem rotatedRa_spec_witness :
    (0 : ℝ) ≤ 0 * 15 - lst ⟨0, 0, 0, 0⟩ 0 + 360 ∧
    0 ≤ rotatedRa ⟨0, 0, 0, 0⟩ 0 0 := by
  have h : (0 : ℝ) ≤ 0 * 15 - lst ⟨0, 0, 0, 0⟩ 0 + 360 := by
    unfold lst totalHours
    norm_num
  exact ⟨h, (rotatedRa_spec ⟨0, 0, 0, 0⟩ 0 0).2.2.2.1 h⟩

theorem mercatorClampedDec_saturated (dec : ℝ) (h : 85 ≤ dec) :
    mercatorClampedDec dec = 1.4835 := by
  unfold mercatorClampedDec
  have hpi := Real.pi_gt_d6
  have h85 : (1.4835 : ℝ) ≤ dec * π / 180 := by nlinarith
  rw [min_eq_right h85]
  rw [max_eq_left (by norm_num)]

/-- C6: `equatorialToMercator` subtracts the pan offset from `ra·15` when
Mercator is active and normalises the result into `[0, 360)` (the
`((x % 360) + 360) % 360` chain computes the mathematical modulus), clamps the
declination to `±1.4835` radians before the `ln(tan(π/4 + dec/2))` transform,
and consequently the projected y for dec = 89 equals the projected y for
dec = 85 exactly. -/
theorem equatorialToMercator_spec (panX ra dec : ℝ) :
    (mercatorNormalizedRA "mercator" panX ra =
        mathMod (ra * 15 - panX * 180 / π) 360 ∧
      0 ≤ mercatorNormalizedRA "mercator" panX ra ∧
      mercatorNormalizedRA "mercator" panX ra < 360) ∧
    (-1.4835 ≤ mercatorClampedDec dec ∧ mercatorClampedDec dec ≤ 1.4835) ∧
    (∀ pt : String, (equatorialToMercator pt panX ra dec).2.1 =
      Real.log (Real.tan (π / 4 + mercatorClampedDec dec / 2))) ∧
    (∀ pt : String, (equatorialToMercator pt panX ra 89).2.1 =
      (equatorialToMercator pt panX ra 85).2.1) := by
  have hn : mercatorNormalizedRA "mercator" panX ra =
      jsRem (jsRem (ra * 15 - panX * 180 / π) 360 + 360) 360 := by
    unfold mercatorNormalizedRA
    simp
  refine ⟨⟨?_, ?_, ?_⟩, ⟨le_max_right _ _, ?_⟩, fun pt => rfl, fun pt => ?_⟩
  · rw [hn]
    exact jsRem_jsRem_add _ _ (by norm_num)
  · rw [hn, jsRem_jsRem_add _ _ (by norm_num)]
    exact mathMod_nonneg _ _ (by norm_num)
  · rw [hn, jsRem_jsRem_add _ _ (by norm_num)]
    exact mathMod_lt _ _ (by norm_num)
  · exact max_le (min_le_right _ _) (by norm_num)
  · show Real.log (Real.tan (π / 4 + mercatorClampedDec 89 / 2)) =
      Real.log (Real.tan (π / 4 + mercatorClampedDec 85 / 2))
    rw [mercatorClampedDec_saturated 89 (by norm_num),
      mercatorClampedDec_saturated 85 le_rfl]

theorem equatorialToMercator_spec_witness :
    (equatorialToMercator "mercator" 0 (3 : ℝ) 89).2.1 =
      (equatorialToMercator "mercator" 0 (3 : ℝ) 85).2.1 :=
  (equatorialToMercator_spec 0 3 0).2.2.2 "mercator"

theorem whileSub360_le (x : ℝ) : whileSub360 x ≤ 360 := by
  unfold whileSub360
  split
  · have hc := Int.le_ceil ((x - 360) / 360)
    have : x - 360 ≤ 360 * ⌈(x - 360) / 360⌉ := by
      have := mul_le_mul_of_nonneg_left hc (by norm_num : (0:ℝ) ≤ 360)
      linarith [this]
    linarith
  · linarith [not_lt.mp (by assumption : ¬ 360 < x)]

theorem whileAdd360_nonneg (x : ℝ) : 0 ≤ whileAdd360 x := by
  unfold whileAdd360
  split
  · have hc := Int.le_ceil ((-x) / 360)
    have : -x ≤ 360 * ⌈(-x) / 360⌉ := by
      have := mul_le_mul_of_nonneg_left hc (by norm_num : (0:ℝ) ≤ 360)
      linarith [this]
    linarith
  · linarith [not_lt.mp (by assumption : ¬ x < 0)]

theorem whileAdd360_le (x : ℝ) (hx : x ≤ 360) : whileAdd360 x ≤ 360 := by
  unfold whileAdd360
  split
  · have hx0 : x < 0 := by assumption
    have hc := Int.ceil_lt_add_one ((-x) / 360)
    have : 360 * (⌈(-x) / 360⌉ : ℝ) < 360 * ((-x) / 360 + 1) := by
      exact mul_lt_mul_of_pos_left hc (by norm_num)
    have h2 : 360 * ((-x) / 360 + 1) = -x + 360 := by ring
    linarith
  · exact hx

theorem hammerNormalizedRA_bounds (pt : String) (hr ra : ℝ)
    (h : pt = "hammer" → hr = 0) :
    0 ≤ hammerNormalizedRA pt hr ra ∧ hammerNormalizedRA pt hr ra ≤ 360 := by
  have hcond : ¬ (pt = "hammer" ∧ hr ≠ 0) := by
    rintro ⟨h1, h2⟩
    exact h2 (h h1)
  unfold hammerNormalizedRA
  rw [if_neg hcond]
  exact ⟨whileAdd360_nonneg _, whileAdd360_le _ (whileSub360_le _)⟩

theorem hammerRaRad_bounds (pt : String) (hr ra : ℝ)
    (h : pt = "hammer" → hr = 0) :
    -π ≤ hammerRaRad pt hr ra ∧ hammerRaRad pt hr ra < π := by
  obtain ⟨h0, h360⟩ := hammerNormalizedRA_bounds pt hr ra h
  unfold hammerRaRad
  set n := hammerNormalizedRA pt hr ra
  have hnn : 0 ≤ n + 180 := by linarith
  rw [jsRem_of_nonneg _ _ hnn]
  have hm0 : 0 ≤ mathMod (n + 180) 360 := mathMod_nonneg _ _ (by norm_num)
  have hm1 : mathMod (n + 180) 360 < 360 := mathMod_lt _ _ (by norm_num)
  have hpi := Real.pi_pos
  constructor
  · nlinarith
  · nlinarith

theorem hammerDenom_ge_one (pt : String) (hr ra dec : ℝ)
    (h : pt = "hammer" → hr = 0) (hdec : |dec| ≤ 90) :
    1 ≤ hammerDenom pt hr ra dec := by
  obtain ⟨hr1, hr2⟩ := hammerRaRad_bounds pt hr ra h
  have hpi := Real.pi_pos
  have hcosA : 0 ≤ Real.cos (hammerRaRad pt hr ra / 2) := by
    apply Real.cos_nonneg_of_mem_Icc
    constructor
    · linarith
    · linarith
  have hdec1 : -90 ≤ dec := (abs_le.mp hdec).1
  have hdec2 : dec ≤ 90 := (abs_le.mp hdec).2
  have hcosD : 0 ≤ Real.cos (dec * π / 180) := by
    apply Real.cos_nonneg_of_mem_Icc
    constructor
    · nlinarith
    · nlinarith
  unfold hammerDenom
  rw [Real.le_sqrt' one_pos]
  nlinarith

/-- C2 (amended): for every input with `|dec| ≤ 90` (and no polar-axis
rotation applied), the Hammer denominator is at least 1, so the `denom = 0`
guard is never taken and `equatorialToHammer` returns the Hammer-Aitoff
formulas `x = 2√2·cos(dec)·sin(α)/denom`, `y = √2·sin(dec)/denom` for the
normalized half-angle `α`.  In particular at the antipodal input ra = 180°
(12 h), dec = 0 the denominator is 1, not 0. -/
theorem equatorialToHammer_spec (pt : String) (hr ra dec : ℝ)
    (h : pt = "hammer" → hr = 0) (hdec : |dec| ≤ 90) :
    1 ≤ hammerDenom pt hr ra dec ∧
    equatorialToHammer pt hr ra dec =
      (2 * Real.sqrt 2 * Real.cos (dec * π / 180) *
          Real.sin (hammerRaRad pt hr ra / 2) / hammerDenom pt hr ra dec,
        Real.sqrt 2 * Real.sin (dec * π / 180) / hammerDenom pt hr ra dec,
        0) := by
  have h1 := hammerDenom_ge_one pt hr ra dec h hdec
  have hne : hammerDenom pt hr ra dec ≠ 0 := by linarith
  refine ⟨h1, ?_⟩
  unfold equatorialToHammer
  simp only []
  rw [if_neg hne]

theorem equatorialToHammer_spec_witness :
    |(0 : ℝ)| ≤ 90 ∧ 1 ≤ hammerDenom "spherical" 0 12 0 :=
  ⟨by norm_num,
    (equatorialToHammer_spec "spherical" 0 12 0 (fun hc => rfl) (by norm_num)).1⟩

theorem hammerNormalizedRA_at_antipode :
    hammerNormalizedRA "spherical" 0 12 = 180 := by
  unfold hammerNormalizedRA whileSub360 whileAdd360
  norm_num

theorem hammerRaRad_at_antipode : hammerRaRad "spherical" 0 12 = -π := by
  unfold hammerRaRad
  rw [hammerNormalizedRA_at_antipode]
  have hj : jsRem (180 + 180) 360 = 0 := by
    rw [jsRem_of_nonneg _ _ (by norm_num)]
    unfold mathMod
    norm_num
  rw [hj]
  ring

/-- C2 counterexample: at the claimed singular input ra = 180° (12 h),
dec = 0, the Hammer denominator is `sqrt(1 + cos 0 · cos(-π/2)) = 1`, not 0,
and `equatorialToHammer` returns `(-2√2, 0, 0)` — the edge of the projection
ellipse — not the origin `{0, 0, 0}`. -/
theorem equatorialToHammer_antipodal_not_origin :
    equatorialToHammer "spherical" 0 12 0 = (-(2 * Real.sqrt 2), 0, 0) ∧
    equatorialToHammer "spherical" 0 12 0 ≠ (0, 0, 0) := by
  have hd : hammerDenom "spherical" 0 12 0 = 1 := by
    unfold hammerDenom
    rw [hammerRaRad_at_antipode]
    rw [show -π / 2 = -(π / 2) by ring, Real.cos_neg, Real.cos_pi_div_two]
    norm_num
  have hs := equatorialToHammer_spec "spherical" 0 12 0 (fun hc => rfl) (by norm_num)
  have hval : equatorialToHammer "spherical" 0 12 0 = (-(2 * Real.sqrt 2), 0, 0) := by
    rw [hs.2, hd, hammerRaRad_at_antipode]
    rw [show -π / 2 = -(π / 2) by ring, Real.sin_neg, Real.sin_pi_div_two]
    norm_num
  refine ⟨hval, ?_⟩
  rw [hval]
  have h2 : 0 < Real.sqrt 2 := Real.sqrt_pos.mpr (by norm_num)
  intro hcontra
  rw [Prod.mk.injEq, Prod.mk.injEq] at hcontra
  have := hcontra.1
  nlinarith

theorem normalizedRadius_val (px py W H v : ℝ) (hv : 0 ≤ v)
    (hx : ((px / W) * 2 - 1) * ((px / W) * 2 - 1) +
      ((py / H) * 2 - 1) * ((py / H) * 2 - 1) = v * v) :
    normalizedRadius (px, py) W H = v := by
  unfold normalizedRadius
  simp only []
  rw [hx]
  rw [Real.sqrt_eq_iff_mul_self_eq (by nlinarith) hv]

/-- C5: a polyline segment between consecutive on-screen points is suppressed
exactly when, under Hammer, an endpoint's normalized radius exceeds 1.15, or
the pixel length exceeds 0.4×width, or the endpoints sit on opposite
horizontal halves with `|dx|` over 0.4×width; under Mercator, when `|dx|`
exceeds 0.8×width; never under spherical or stereographic.  At the exact
radius boundary 1.15 the segment is connected; radii 1.2/1.2 suppress and
radii 0.5/0.5 connect. -/
theorem suppressSegment_clipping :
    (∀ (lastPos pos : ℝ × ℝ) (W H : ℝ),
      (suppressSegment "hammer" lastPos pos W H ↔
        (1.15 < normalizedRadius lastPos W H ∨
          1.15 < normalizedRadius pos W H ∨
          0.4 * W < segmentLength lastPos pos ∨
          (((lastPos.1 / W) * 2 - 1) * ((pos.1 / W) * 2 - 1) < 0 ∧
            0.4 * W < |pos.1 - lastPos.1|))) ∧
      (suppressSegment "mercator" lastPos pos W H ↔
        0.8 * W < |pos.1 - lastPos.1|) ∧
      ¬ suppressSegment "spherical" lastPos pos W H ∧
      ¬ suppressSegment "stereographic" lastPos pos W H) ∧
    ¬ suppressSegment "hammer" (1075, 500) (1074, 500) 1000 1000 ∧
    suppressSegment "hammer" (1100, 500) (1100, 500) 1000 1000 ∧
    ¬ suppressSegment "hammer" (750, 500) (500, 750) 1000 1000 := by
  have hmain : ∀ (lastPos pos : ℝ × ℝ) (W H : ℝ),
      (suppressSegment "hammer" lastPos pos W H ↔
        (1.15 < normalizedRadius lastPos W H ∨
          1.15 < normalizedRadius pos W H ∨
          0.4 * W < segmentLength lastPos pos ∨
          (((lastPos.1 / W) * 2 - 1) * ((pos.1 / W) * 2 - 1) < 0 ∧
            0.4 * W < |pos.1 - lastPos.1|))) ∧
      (suppressSegment "mercator" lastPos pos W H ↔
        0.8 * W < |pos.1 - lastPos.1|) ∧
      ¬ suppressSegment "spherical" lastPos pos W H ∧
      ¬ suppressSegment "stereographic" lastPos pos W H := by
    intro lastPos pos W H
    refine ⟨?_, ?_, ?_, ?_⟩
    · unfold suppressSegment normalizedRadius segmentLength
      rw [if_pos rfl]
      rw [show W * 0.4 = 0.4 * W by ring]
    · unfold suppressSegment
      rw [if_neg (by decide : ¬ ("mercator" : String) = "hammer"), if_pos rfl]
      rw [show W * 0.8 = 0.8 * W by ring]
    · unfold suppressSegment
      rw [if_neg (by decide : ¬ ("spherical" : String) = "hammer"),
        if_neg (by decide : ¬ ("spherical" : String) = "mercator")]
      exact not_false
    · unfold suppressSegment
      rw [if_neg (by decide : ¬ ("stereographic" : String) = "hammer"),
        if_neg (by decide : ¬ ("stereographic" : String) = "mercator")]
      exact not_false
  refine ⟨hmain, ?_, ?_, ?_⟩
  · rw [(hmain (1075, 500) (1074, 500) 1000 1000).1]
    push_neg
    have h1 : normalizedRadius (1075, 500) 1000 1000 = 1.15 :=
      normalizedRadius_val _ _ _ _ _ (by norm_num) (by norm_num)
    have h2 : normalizedRadius (1074, 500) 1000 1000 = 1.148 :=
      normalizedRadius_val _ _ _ _ _ (by norm_num) (by norm_num)
    have h3 : segmentLength (1075, 500) (1074, 500) = 1 := by
      unfold segmentLength
      norm_num
    refine ⟨by rw [h1], by rw [h2]; norm_num, by rw [h3]; norm_num, ?_⟩
    intro hopp
    norm_num at hopp
  · rw [(hmain (1100, 500) (1100, 500) 1000 1000).1]
    left
    have h1 : normalizedRadius (1100, 500) 1000 1000 = 1.2 :=
      normalizedRadius_val _ _ _ _ _ (by norm_num) (by norm_num)
    rw [h1]
    norm_num
  · rw [(hmain (750, 500) (500, 750) 1000 1000).1]
    push_neg
    have h1 : normalizedRadius (750, 500) 1000 1000 = 0.5 :=
      normalizedRadius_val _ _ _ _ _ (by norm_num) (by norm_num)
    have h2 : normalizedRadius (500, 750) 1000 1000 = 0.5 :=
      normalizedRadius_val _ _ _ _ _ (by norm_num) (by norm_num)
    have h3 : segmentLength (750, 500) (500, 750) ≤ 400 := by
      unfold segmentLength
      have h4 : ((400 : ℝ)) = Real.sqrt 160000 :=
        ((Real.sqrt_eq_iff_mul_self_eq (by norm_num) (by norm_num)).mpr
          (by norm_num)).symm
      simp only []
      rw [show ((500:ℝ) - 750) * ((500:ℝ) - 750) + ((750:ℝ) - 500) * ((750:ℝ) - 500)
        = 125000 by norm_num, h4]
      exact Real.sqrt_le_sqrt (by norm_num)
    refine ⟨by rw [h1]; norm_num, by rw [h2]; norm_num,
      by rw [show (0.4 : ℝ) * 1000 = 400 by norm_num]; exact h3, ?_⟩
    intro hopp
    norm_num at hopp

theorem pickStep_none_iff {α : Type} (proj : α → Option (ℝ × ℝ)) (mouse : ℝ × ℝ)
    (acc : Option (α × (ℝ × ℝ) × ℝ)) (s : α) :
    pickStep proj mouse acc s = none ↔ acc = none ∧ proj s = none := by
  unfold pickStep
  cases hp : proj s with
  | none => simp
  | some p =>
    cases acc with
    | none => simp
    | some trip =>
      obtain ⟨s0, p0, d0⟩ := trip
      by_cases hd : pixelDistance p mouse < d0 <;> simp [hd]

/-- The scan yields nothing exactly when it started empty and no star in the
list projects on screen. -/
theorem pickLoop_none_iff {α : Type} (proj : α → Option (ℝ × ℝ)) (mouse : ℝ × ℝ) :
    ∀ (l : List α) (acc : Option (α × (ℝ × ℝ) × ℝ)),
      pickLoop proj mouse acc l = none ↔
        acc = none ∧ ∀ s ∈ l, proj s = none := by
  intro l
  induction l with
  | nil => intro acc; simp [pickLoop]
  | cons a rest ih =>
    intro acc
    rw [pickLoop, ih, pickStep_none_iff]
    constructor
    · rintro ⟨⟨h1, h2⟩, h3⟩
      exact ⟨h1, by
        intro s hs
        rcases List.mem_cons.mp hs with h | h
        · rw [h]; exact h2
        · exact h3 s h⟩
    · rintro ⟨h1, h2⟩
      exact ⟨⟨h1, h2 a (List.mem_cons_self a rest)⟩,
        fun s hs => h2 s (List.mem_cons_of_mem a hs)⟩

theorem pickStep_proj_none {α : Type} (proj : α → Option (ℝ × ℝ)) (mouse : ℝ × ℝ)
    (acc : Option (α × (ℝ × ℝ) × ℝ)) (a : α) (hpa : proj a = none) :
    pickStep proj mouse acc a = acc := by
  unfold pickStep
  rw [hpa]

theorem pickStep_first {α : Type} (proj : α → Option (ℝ × ℝ)) (mouse : ℝ × ℝ)
    (a : α) (pa : ℝ × ℝ) (hpa : proj a = some pa) :
    pickStep proj mouse none a = some (a, pa, pixelDistance pa mouse) := by
  unfold pickStep
  rw [hpa]

theorem pickStep_closer {α : Type} (proj : α → Option (ℝ × ℝ)) (mouse : ℝ × ℝ)
    (a : α) (pa : ℝ × ℝ) (s0 : α) (p0 : ℝ × ℝ) (d0 : ℝ)
    (hpa : proj a = some pa) (hlt : pixelDistance pa mouse < d0) :
    pickStep proj mouse (some (s0, p0, d0)) a =
      some (a, pa, pixelDistance pa mouse) := by
  unfold pickStep
  rw [hpa]
  simp only [if_pos hlt]

theorem pickStep_keep {α : Type} (proj : α → Option (ℝ × ℝ)) (mouse : ℝ × ℝ)
    (a : α) (pa : ℝ × ℝ) (s0 : α) (p0 : ℝ × ℝ) (d0 : ℝ)
    (hpa : proj a = some pa) (hlt : ¬ pixelDistance pa mouse < d0) :
    pickStep proj mouse (some (s0, p0, d0)) a = some (s0, p0, d0) := by
  unfold pickStep
  rw [hpa]
  simp only [if_neg hlt]

/-- Full characterisation of a successful scan: either the accumulator
survived and everything in the list is no closer, or the winner is a star of
the list at distance `d`, strictly closer than the accumulator and everything
before it, and at least as close as everything after it (ties keep the
earlier star). -/
theorem pickLoop_some_cases {α : Type} (proj : α → Option (ℝ × ℝ)) (mouse : ℝ × ℝ) :
    ∀ (l : List α) (acc : Option (α × (ℝ × ℝ) × ℝ)) (s : α) (p : ℝ × ℝ) (d : ℝ),
    pickLoop proj mouse acc l = some (s, p, d) →
    (acc = some (s, p, d) ∧
      ∀ s2 ∈ l, ∀ p2, proj s2 = some p2 → d ≤ pixelDistance p2 mouse) ∨
    (∃ l1 l2, l = l1 ++ s :: l2 ∧ proj s = some p ∧ d = pixelDistance p mouse ∧
      (∀ s0 p0 d0, acc = some (s0, p0, d0) → d < d0) ∧
      (∀ s2 ∈ l1, ∀ p2, proj s2 = some p2 → d < pixelDistance p2 mouse) ∧
      (∀ s2 ∈ l2, ∀ p2, proj s2 = some p2 → d ≤ pixelDistance p2 mouse)) := by
  intro l
  induction l with
  | nil =>
    intro acc s p d h
    left
    rw [pickLoop] at h
    exact ⟨h, by intro s2 hs2; cases hs2⟩
  | cons a rest ih =>
    intro acc s p d h
    rw [pickLoop] at h
    rcases ih (pickStep proj mouse acc a) s p d h with
      ⟨hacc, hrest⟩ | ⟨l1, l2, heq, hproj, hd, hprior, hstrict, hpost⟩
    · -- the accumulator coming out of step `a` survived the rest of the scan
      cases hpa : proj a with
      | none =>
        left
        rw [pickStep_proj_none proj mouse acc a hpa] at hacc
        refine ⟨hacc, ?_⟩
        intro s2 hs2 p2 hp2
        rcases List.mem_cons.mp hs2 with h2 | h2
        · rw [h2] at hp2; rw [hp2] at hpa; cases hpa
        · exact hrest s2 h2 p2 hp2
      | some pa =>
        cases acc with
        | none =>
          -- first projected star: it becomes the accumulator
          right
          rw [pickStep_first proj mouse a pa hpa] at hacc
          simp only [Option.some.injEq, Prod.mk.injEq] at hacc
          obtain ⟨hsa, hpa2, hda⟩ := hacc
          refine ⟨[], rest, (by simp [hsa]), ?_, ?_,
            (by intro s0 p0 d0 h0; cases h0),
            (by intro s2 hs2; cases hs2), hrest⟩
          · rw [← hsa, hpa, hpa2]
          · rw [← hpa2]
            exact hda.symm
        | some trip =>
          obtain ⟨s0, p0, d0⟩ := trip
          by_cases hlt : pixelDistance pa mouse < d0
          · -- star `a` replaced the old accumulator
            right
            rw [pickStep_closer proj mouse a pa s0 p0 d0 hpa hlt] at hacc
            simp only [Option.some.injEq, Prod.mk.injEq] at hacc
            obtain ⟨hsa, hpa2, hda⟩ := hacc
            refine ⟨[], rest, (by simp [hsa]), ?_, ?_, ?_,
              (by intro s2 hs2; cases hs2), hrest⟩
            · rw [← hsa, hpa, hpa2]
            · rw [← hpa2]
              exact hda.symm
            · intro s1 p1 d1 h1
              simp only [Option.some.injEq, Prod.mk.injEq] at h1
              rw [← h1.2.2, ← hda]
              exact hlt
          · -- the old accumulator survived the comparison with `a`
            left
            rw [pickStep_keep proj mouse a pa s0 p0 d0 hpa hlt] at hacc
            refine ⟨hacc, ?_⟩
            intro s2 hs2 p2 hp2
            rcases List.mem_cons.mp hs2 with h2 | h2
            · rw [h2] at hp2
              rw [hp2] at hpa
              cases hpa
              simp only [Option.some.injEq, Prod.mk.injEq] at hacc
              rw [← hacc.2.2]
              exact not_lt.mp hlt
            · exact hrest s2 h2 p2 hp2
    · -- the winner came from the rest of the list
      right
      cases hpa : proj a with
      | none =>
        refine ⟨a :: l1, l2, (by rw [heq]; rfl), hproj, hd, ?_, ?_, hpost⟩
        · intro s0 p0 d0 h0
          apply hprior s0 p0 d0
          rw [pickStep_proj_none proj mouse acc a hpa, h0]
        · intro s2 hs2 p2 hp2
          rcases List.mem_cons.mp hs2 with h2 | h2
          · rw [h2] at hp2; rw [hp2] at hpa; cases hpa
          · exact hstrict s2 h2 p2 hp2
      | some pa =>
        cases acc with
        | none =>
          have hda : d < pixelDistance pa mouse := by
            apply hprior a pa (pixelDistance pa mouse)
            rw [pickStep_first proj mouse a pa hpa]
          refine ⟨a :: l1, l2, (by rw [heq]; rfl), hproj, hd,
            (by intro s0 p0 d0 h0; cases h0), ?_, hpost⟩
          intro s2 hs2 p2 hp2
          rcases List.mem_cons.mp hs2 with h2 | h2
          · rw [h2] at hp2
            rw [hp2] at hpa
            cases hpa
            exact hda
          · exact hstrict s2 h2 p2 hp2
        | some trip =>
          obtain ⟨s0, p0, d0⟩ := trip
          by_cases hlt : pixelDistance pa mouse < d0
          · have hda : d < pixelDistance pa mouse := by
              apply hprior a pa (pixelDistance pa mouse)
              rw [pickStep_closer proj mouse a pa s0 p0 d0 hpa hlt]
            refine ⟨a :: l1, l2, (by rw [heq]; rfl), hproj, hd, ?_, ?_, hpost⟩
            · intro s1 p1 d1 h1
              simp only [Option.some.injEq, Prod.mk.injEq] at h1
              rw [← h1.2.2]
              exact lt_trans hda hlt
            · intro s2 hs2 p2 hp2
              rcases List.mem_cons.mp hs2 with h2 | h2
              · rw [h2] at hp2
                rw [hp2] at hpa
                cases hpa
                exact hda
              · exact hstrict s2 h2 p2 hp2
          · have hd0 : d < d0 := by
              apply hprior s0 p0 d0
              rw [pickStep_keep proj mouse a pa s0 p0 d0 hpa hlt]
            refine ⟨a :: l1, l2, (by rw [heq]; rfl), hproj, hd, ?_, ?_, hpost⟩
            · intro s1 p1 d1 h1
              simp only [Option.some.injEq, Prod.mk.injEq] at h1
              rw [← h1.2.2]
              exact hd0
            · intro s2 hs2 p2 hp2
              rcases List.mem_cons.mp hs2 with h2 | h2
              · rw [h2] at hp2
                rw [hp2] at hpa
                cases hpa
                exact lt_of_lt_of_le hd0 (not_lt.mp hlt)
              · exact hstrict s2 h2 p2 hp2

/-- C4: the click pick transforms the star list at the handler's snapshot
instant, projects each star, and selects the star of minimum Euclidean pixel
distance from the pointer; it is a hit only if that distance is below the
fixed 10-pixel threshold (otherwise no hit and no `activeStars` change), and
an exact tie selects the first star in catalog iteration order (every star
strictly before the winner is strictly farther). -/
theorem clickPick_spec (st : EngineState) (mv pr : Mat4) (W H : ℝ) (t : Instant)
    (stars : List Star) (mouse : ℝ × ℝ) :
    (∀ s p, clickPick st mv pr W H t stars mouse = some (s, p) →
      starScreen st mv pr W H t s = some p ∧
      pixelDistance p mouse < 10 ∧
      (∀ s2 ∈ stars, ∀ p2, starScreen st mv pr W H t s2 = some p2 →
        pixelDistance p mouse ≤ pixelDistance p2 mouse) ∧
      (∃ l1 l2, stars = l1 ++ s :: l2 ∧
        ∀ s2 ∈ l1, ∀ p2, starScreen st mv pr W H t s2 = some p2 →
          pixelDistance p mouse < pixelDistance p2 mouse)) ∧
    (clickPick st mv pr W H t stars mouse = none →
      (∀ s2 ∈ stars, ∀ p2, starScreen st mv pr W H t s2 = some p2 →
        10 ≤ pixelDistance p2 mouse) ∧
      (∀ active, clickUpdateActive st mv pr W H t stars mouse active = active)) := by
  set proj := starScreen st mv pr W H t with hproj_def
  constructor
  · intro s p h
    unfold clickPick at h
    cases hloop : pickLoop proj mouse none stars with
    | none =>
      rw [hloop] at h
      exact Option.noConfusion h
    | some trip =>
      obtain ⟨s1, p1, d1⟩ := trip
      rw [hloop] at h
      change (if d1 < 10 then some (s1, p1) else none) = some (s, p) at h
      by_cases hd10 : d1 < 10
      · rw [if_pos hd10] at h
        simp only [Option.some.injEq, Prod.mk.injEq] at h
        obtain ⟨hs1, hp1⟩ := h
        rcases pickLoop_some_cases proj mouse stars none s1 p1 d1 hloop with
          ⟨habs, _⟩ | ⟨l1, l2, heq, hp, hd, _, hstrict, hpost⟩
        · cases habs
        · subst hs1
          subst hp1
          subst hd
          refine ⟨hp, hd10, ?_, l1, l2, heq, hstrict⟩
          intro s2 hs2 p2 hp2
          rw [heq] at hs2
          rcases List.mem_append.mp hs2 with h2 | h2
          · exact le_of_lt (hstrict s2 h2 p2 hp2)
          · rcases List.mem_cons.mp h2 with h3 | h3
            · rw [h3] at hp2
              rw [hp2] at hp
              simp only [Option.some.injEq] at hp
              rw [hp]
            · exact hpost s2 h3 p2 hp2
      · rw [if_neg hd10] at h
        exact Option.noConfusion h
  · intro h
    have hupd : ∀ active, clickUpdateActive st mv pr W H t stars mouse active =
        active := by
      intro active
      unfold clickUpdateActive
      rw [h]
    refine ⟨?_, hupd⟩
    unfold clickPick at h
    cases hloop : pickLoop proj mouse none stars with
    | none =>
      have hall := (pickLoop_none_iff proj mouse stars none).mp hloop
      intro s2 hs2 p2 hp2
      rw [hall.2 s2 hs2] at hp2
      cases hp2
    | some trip =>
      obtain ⟨s1, p1, d1⟩ := trip
      rw [hloop] at h
      change (if d1 < 10 then some (s1, p1) else none) = none at h
      by_cases hd10 : d1 < 10
      · rw [if_pos hd10] at h
        exact Option.noConfusion h
      · rcases pickLoop_some_cases proj mouse stars none s1 p1 d1 hloop with
          ⟨habs, _⟩ | ⟨l1, l2, heq, hp, hd, _, hstrict, hpost⟩
        · cases habs
        · intro s2 hs2 p2 hp2
          have hmin : d1 ≤ pixelDistance p2 mouse := by
            rw [heq] at hs2
            rcases List.mem_append.mp hs2 with h2 | h2
            · exact le_of_lt (hstrict s2 h2 p2 hp2)
            · rcases List.mem_cons.mp h2 with h3 | h3
              · rw [h3] at hp2
                rw [hp2] at hp
                simp only [Option.some.injEq] at hp
                rw [hd, hp]
              · exact hpost s2 h3 p2 hp2
          exact le_trans (not_lt.mp hd10) hmin

theorem pickDemo_screen :
    starScreen pickDemoState mat4Id mat4Id 200 200 ⟨0, 0, 0, 0⟩ pickDemoStar =
      some (200, 100) := by
  have hra : rotatedRa ⟨0, 0, 0, 0⟩ (0 : ℝ) 0 = 0 := by
    unfold rotatedRa
    rw [jsRem_of_nonneg]
    · unfold mathMod lst totalHours
      norm_num
    · unfold lst totalHours
      norm_num
  have htr : transformStar "spherical" pickDemoState ⟨0, 0, 0, 0⟩ pickDemoStar =
      (1, 0, 0) := by
    unfold transformStar pickDemoState pickDemoStar
    simp only []
    rw [if_neg (by decide : ¬ ("spherical" : String) = "stereographic"),
      if_neg (by decide : ¬ ("spherical" : String) = "mercator"),
      if_neg (by decide : ¬ ("spherical" : String) = "hammer")]
    norm_num [hra]
  unfold starScreen
  rw [show pickDemoState.projectionType = "spherical" from rfl, htr]
  unfold projectPoint transformMat4 mat4Id
  norm_num

theorem pickDemo_distance :
    pixelDistance (200, 100) (203, 102) = Real.sqrt 13 := by
  unfold pixelDistance
  norm_num

theorem clickPick_spec_witness :
    clickPick pickDemoState mat4Id mat4Id 200 200 ⟨0, 0, 0, 0⟩ [pickDemoStar]
        (203, 102) = some (pickDemoStar, (200, 100)) ∧
    pixelDistance (200, 100) (203, 102) < 10 ∧
    clickPick pickDemoState mat4Id mat4Id 200 200 ⟨0, 0, 0, 0⟩ [pickDemoStar]
        (300, 300) = none ∧
    clickUpdateActive pickDemoState mat4Id mat4Id 200 200 ⟨0, 0, 0, 0⟩
        [pickDemoStar] (300, 300) [] = [] := by
  have hd13 : pixelDistance (200, 100) (203, 102) < 10 := by
    rw [pickDemo_distance, Real.sqrt_lt' (by norm_num)]
    norm_num
  have hloop1 : pickLoop (starScreen pickDemoState mat4Id mat4Id 200 200 ⟨0, 0, 0, 0⟩)
      (203, 102) none [pickDemoStar] =
      some (pickDemoStar, (200, 100), pixelDistance (200, 100) (203, 102)) := by
    rw [pickLoop, pickLoop, pickStep_first _ _ _ _ pickDemo_screen]
  have hsome : clickPick pickDemoState mat4Id mat4Id 200 200 ⟨0, 0, 0, 0⟩
      [pickDemoStar] (203, 102) = some (pickDemoStar, (200, 100)) := by
    unfold clickPick
    rw [hloop1]
    change (if pixelDistance (200, 100) (203, 102) < 10 then
      some (pickDemoStar, ((200 : ℝ), (100 : ℝ))) else none) = _
    rw [if_pos hd13]
  have hdfar : ¬ pixelDistance (200, 100) (300, 300) < 10 := by
    have hv : pixelDistance (200, 100) (300, 300) = Real.sqrt 50000 := by
      unfold pixelDistance
      norm_num
    rw [hv, Real.sqrt_lt' (by norm_num)]
    norm_num
  have hloop2 : pickLoop (starScreen pickDemoState mat4Id mat4Id 200 200 ⟨0, 0, 0, 0⟩)
      (300, 300) none [pickDemoStar] =
      some (pickDemoStar, (200, 100), pixelDistance (200, 100) (300, 300)) := by
    rw [pickLoop, pickLoop, pickStep_first _ _ _ _ pickDemo_screen]
  have hnone : clickPick pickDemoState mat4Id mat4Id 200 200 ⟨0, 0, 0, 0⟩
      [pickDemoStar] (300, 300) = none := by
    unfold clickPick
    rw [hloop2]
    change (if pixelDistance (200, 100) (300, 300) < 10 then
      some (pickDemoStar, ((200 : ℝ), (100 : ℝ))) else none) = _
    rw [if_neg hdfar]
  refine ⟨hsome, ?_, hnone, ?_⟩
  · exact ((clickPick_spec pickDemoState mat4Id mat4Id 200 200 ⟨0, 0, 0, 0⟩
      [pickDemoStar] (203, 102)).1 pickDemoStar (200, 100) hsome).2.1
  · exact ((clickPick_spec pickDemoState mat4Id mat4Id 200 200 ⟨0, 0, 0, 0⟩
      [pickDemoStar] (300, 300)).2 hnone).2 []

end XeronSky
